import Mathlib

/-!
Verification of the report-orchestrator service.

The definitions below are a shallow embedding of the repository's data model
and operations: the Prisma-backed store becomes an explicit `Store` record,
each Prisma call becomes a pure function on `Store`, and thrown JavaScript
exceptions become `Except` values.  Timestamps are integers, row ids are
naturals.  Store calls that may fail transiently are modelled with an
explicit fault oracle; a uniqueness violation is not an oracle event but is
determined by the store contents, exactly as the database determines it.
-/

namespace ReportOrchestrator

/-- Report lifecycle states, from `ReportStatus` in report-response.dto. -/
inductive ReportStatus where
  | PENDING
  | RUNNING
  | COMPLETED
  | FAILED
deriving DecidableEq, Repr

/-- Report output formats, from `ReportFormat` in create-report.dto. -/
inductive ReportFormat where
  | CSV
  | JSON
deriving DecidableEq, Repr

/-- The `params` payload of a report (create-report.dto `ReportParamsDto`). -/
structure ReportParams where
  fromDate : String
  toDate : String
  format : ReportFormat
deriving DecidableEq, Repr

/-- A row of the `reports` table. -/
structure Report where
  id : Nat
  tenantId : String
  rtype : String
  params : ReportParams
  status : ReportStatus
  attempts : Nat
  idempotencyKey : Option String
  lockedAt : Option Int
  lockedBy : Option String
  createdAt : Int
deriving DecidableEq, Repr

/-- A row of the `report_artifacts` table. -/
structure Artifact where
  id : Nat
  reportId : Nat
  contentType : String
  content : String
  sizeBytes : Nat
  checksum : String
deriving DecidableEq, Repr

/-- A row of the `report_executions` table. -/
structure Execution where
  id : Nat
  reportId : Nat
  attempt : Nat
  startedAt : Int
  finishedAt : Option Int
  error : Option String
deriving DecidableEq, Repr

/-- The relational store: the three tables plus id allocators for the rows
the database assigns ids to during the operations under study. -/
structure Store where
  reports : List Report
  artifacts : List Artifact
  executions : List Execution
  nextExecId : Nat
  nextArtifactId : Nat
deriving DecidableEq, Repr

/-- Store well-formedness: primary-key uniqueness of report ids and freshness
of the execution id allocator (both enforced by the database). -/
def Store.WF (s : Store) : Prop :=
  (s.reports.map Report.id).Nodup ∧ ∀ e ∈ s.executions, e.id < s.nextExecId

instance (s : Store) : Decidable s.WF := by
  unfold Store.WF; infer_instance

/-- Status of the report with the given id, if present. -/
def statusOf (rid : Nat) (s : Store) : Option ReportStatus :=
  (s.reports.find? (fun r => r.id = rid)).map Report.status

/-- Attempts counter of the report with the given id, if present. -/
def attemptsOf (rid : Nat) (s : Store) : Option Nat :=
  (s.reports.find? (fun r => r.id = rid)).map Report.attempts

/-! Worker engine (`ReportWorkerService`, part_004). -/

/-- Worker configuration and claim-time environment.  `cutoff` is the stale
threshold `Date.now() - staleLockTimeoutMs`; `now` the current instant;
`held` the set of report rows currently row-locked by other transactions
(the rows `FOR UPDATE SKIP LOCKED` skips over). -/
structure WorkerCfg where
  cutoff : Int
  now : Int
  workerId : String
  maxAttempts : Nat
  held : Nat → Bool

/-- Claim eligibility, from `claimNextJob`'s raw query:
`status = 'PENDING' AND (locked_at IS NULL OR locked_at < staleThreshold)`. -/
def eligible (cutoff : Int) (r : Report) : Bool :=
  r.status = ReportStatus.PENDING &&
    (match r.lockedAt with
     | none => true
     | some t => t < cutoff)

/-- `ORDER BY created_at ASC LIMIT 1` over the rows satisfying `p`: the
first row (in table order) with minimal `created_at` among those rows. -/
def pickOldest (p : Report → Bool) : List Report → Option Report
  | [] => none
  | r :: rs =>
    match pickOldest p rs with
    | none => if p r then some r else none
    | some b => if p r && r.createdAt ≤ b.createdAt then some r else some b

/-- Update the report row with the given id (Prisma `report.update where id`). -/
def updateReport (rid : Nat) (f : Report → Report) (s : Store) : Store :=
  { s with reports := s.reports.map (fun r => if r.id = rid then f r else r) }

/-- The row mutation of the claim transaction: `RUNNING`, fresh lease. -/
def claimUpdate (cfg : WorkerCfg) (q : Report) : Report :=
  { q with
    status := ReportStatus.RUNNING
    lockedAt := some cfg.now
    lockedBy := some cfg.workerId }

/-- The claim transaction (`claimNextJob`, part_004 lines 243-292): select the
oldest `PENDING` row whose lease is absent or stale, skipping rows locked by
other transactions, and update it to `RUNNING` with a fresh lease.  Returns
the pre-update snapshot of the row, as the source does. -/
def claimNextJob (cfg : WorkerCfg) (s : Store) : Option Report × Store :=
  match pickOldest (fun r => eligible cfg.cutoff r && !cfg.held r.id) s.reports with
  | none => (none, s)
  | some r => (some r, updateReport r.id (claimUpdate cfg) s)

/-- The predicate of the stale-lock recovery `updateMany`:
`status = RUNNING AND locked_at < staleThreshold` (a null `locked_at` does
not match Prisma's `lt`). -/
def staleCond (cutoff : Int) (r : Report) : Bool :=
  r.status = ReportStatus.RUNNING &&
    (match r.lockedAt with
     | none => false
     | some t => t < cutoff)

/-- Reset applied to each row matched by stale-lock recovery. -/
def staleReset (cutoff : Int) (r : Report) : Report :=
  if staleCond cutoff r then
    { r with status := ReportStatus.PENDING, lockedAt := none, lockedBy := none }
  else r

/-- `recoverStaleLocks` (part_004 lines 84-107): bulk reset of stale
`RUNNING` rows to `PENDING` with the lease cleared. -/
def recoverStaleLocks (cutoff : Int) (s : Store) : Store :=
  { s with reports := s.reports.map (staleReset cutoff) }

/-- `reportExecution.create`: insert a fresh execution row, returning its id. -/
def createExecution (rid : Nat) (attempt : Nat) (now : Int) (s : Store) :
    Nat × Store :=
  (s.nextExecId,
   { s with
     executions := s.executions ++
       [{ id := s.nextExecId, reportId := rid, attempt := attempt,
          startedAt := now, finishedAt := none, error := none }]
     nextExecId := s.nextExecId + 1 })

/-- `reportExecution.update` setting only `finishedAt` (success and
convergence branches). -/
def closeExecutionOk (execId : Nat) (now : Int) (s : Store) : Store :=
  { s with executions :=
      s.executions.map (fun e =>
        if e.id = execId then { e with finishedAt := some now } else e) }

/-- `reportExecution.update` setting `finishedAt` and `error` (failure path). -/
def closeExecutionErr (execId : Nat) (now : Int) (msg : String) (s : Store) :
    Store :=
  { s with executions :=
      s.executions.map (fun e =>
        if e.id = execId then
          { e with finishedAt := some now, error := some msg }
        else e) }

/-- The data `generateReport` returns for the artifact insert. -/
structure ArtifactData where
  contentType : String
  content : String
  sizeBytes : Nat
  checksum : String
deriving DecidableEq, Repr

/-- `reportArtifact.create`: the insert raises `P2002` on `report_id`
exactly when an artifact row for that report already exists (the database's
`UNIQUE(report_id)` constraint); on the violation nothing is written. -/
def insertArtifact (rid : Nat) (a : ArtifactData) (s : Store) :
    Except Unit Store :=
  if s.artifacts.any (fun x => x.reportId = rid) then Except.error ()
  else Except.ok
    { s with
      artifacts := s.artifacts ++
        [{ id := s.nextArtifactId, reportId := rid,
           contentType := a.contentType, content := a.content,
           sizeBytes := a.sizeBytes, checksum := a.checksum }]
      nextArtifactId := s.nextArtifactId + 1 }

/-- Fault oracle for one tick: which store calls throw a transient error and
what the artifact producer does.  `recoveryFires` models the
`Math.random() < 0.1` draw.  A `some msg` field makes the corresponding call
throw `msg` without applying its write (per-statement atomicity). -/
structure Faults where
  recoveryFires : Bool
  recoveryFault : Option String
  claimFault : Option String
  execCreateFault : Option String
  producer : Except String ArtifactData
  artifactInsertFault : Option String
  completeUpdateFault : Option String
  completeExecFault : Option String
  convergeUpdateFault : Option String
  convergeExecFault : Option String
  failUpdateFault : Option String
  failExecFault : Option String

/-- A fault-free oracle with the given producer outcome. -/
def Faults.clean (producer : Except String ArtifactData) : Faults :=
  { recoveryFires := false, recoveryFault := none, claimFault := none,
    execCreateFault := none, producer := producer,
    artifactInsertFault := none, completeUpdateFault := none,
    completeExecFault := none, convergeUpdateFault := none,
    convergeExecFault := none, failUpdateFault := none,
    failExecFault := none }

/-- The row mutation of the success branch: `COMPLETED`, cleared lease,
`attempts := j.attempts + 1` from the claimed snapshot `j`. -/
def completeUpdate (j : Report) (r : Report) : Report :=
  { r with
    status := ReportStatus.COMPLETED
    attempts := j.attempts + 1
    lockedAt := none
    lockedBy := none }

/-- The row mutation of the convergence branch: `COMPLETED`, cleared lease;
the `attempts` field is not written. -/
def convergeUpdate (r : Report) : Report :=
  { r with
    status := ReportStatus.COMPLETED
    lockedAt := none
    lockedBy := none }

/-- The row mutation of the failure path: `PENDING` while
`j.attempts + 1 < maxAttempts`, else `FAILED`; attempts incremented, lease
cleared. -/
def failUpdate (cfg : WorkerCfg) (j : Report) (r : Report) : Report :=
  { r with
    status := if j.attempts + 1 < cfg.maxAttempts
              then ReportStatus.PENDING else ReportStatus.FAILED
    attempts := j.attempts + 1
    lockedAt := none
    lockedBy := none }

/-- Success branch after the artifact insert (part_004 lines 154-177):
mark the report `COMPLETED` with `attempts := j.attempts + 1` and a cleared
lease, then close the execution.  A thrown error escapes to the enclosing
handlers carrying the partially-updated store. -/
def completeBranch (cfg : WorkerCfg) (f : Faults) (j : Report) (execId : Nat)
    (s : Store) : Except (String × Store) Store :=
  match f.completeUpdateFault with
  | some m => Except.error (m, s)
  | none =>
    let s1 := updateReport j.id (completeUpdate j) s
    match f.completeExecFault with
    | some m => Except.error (m, s1)
    | none => Except.ok (closeExecutionOk execId cfg.now s1)

/-- Convergence branch on a duplicate artifact (part_004 lines 180-199):
mark the report `COMPLETED` with a cleared lease — the `attempts` field is
not written — then close the execution. -/
def convergeBranch (cfg : WorkerCfg) (f : Faults) (j : Report) (execId : Nat)
    (s : Store) : Except (String × Store) Store :=
  match f.convergeUpdateFault with
  | some m => Except.error (m, s)
  | none =>
    let s1 := updateReport j.id convergeUpdate s
    match f.convergeExecFault with
    | some m => Except.error (m, s1)
    | none => Except.ok (closeExecutionOk execId cfg.now s1)

/-- Failure path (part_004 lines 204-237): `newAttempts = j.attempts + 1`;
reset to `PENDING` while `newAttempts < maxAttempts`, else `FAILED`; clear
the lease either way, then close the execution with the error message.
Errors here escape to the outermost catch. -/
def failurePath (cfg : WorkerCfg) (f : Faults) (j : Report) (execId : Nat)
    (msg : String) (s : Store) : Except (String × Store) Store :=
  match f.failUpdateFault with
  | some m => Except.error (m, s)
  | none =>
    let s1 := updateReport j.id (failUpdate cfg j) s
    match f.failExecFault with
    | some m => Except.error (m, s1)
    | none => Except.ok (closeExecutionErr execId cfg.now msg s1)

/-- Lines 139-203: run the producer, insert the artifact, and dispatch on
the outcome.  The inner catch converts only the `P2002` on `report_id` into
the convergence branch; every other error is rethrown. -/
def innerPhase (cfg : WorkerCfg) (f : Faults) (j : Report) (execId : Nat)
    (s : Store) : Except (String × Store) Store :=
  match f.producer with
  | Except.error m => Except.error (m, s)
  | Except.ok art =>
    match f.artifactInsertFault with
    | some m => Except.error (m, s)
    | none =>
      match insertArtifact j.id art s with
      | Except.ok s1 => completeBranch cfg f j execId s1
      | Except.error _ => convergeBranch cfg f j execId s

/-- Lines 138-237: the attempt with its catch — any error from the inner
phase is handled by the failure path. -/
def attemptPhase (cfg : WorkerCfg) (f : Faults) (j : Report) (execId : Nat)
    (s : Store) : Except (String × Store) Store :=
  match innerPhase cfg f j execId s with
  | Except.ok s1 => Except.ok s1
  | Except.error (m, s1) => failurePath cfg f j execId m s1

/-- The body of `processNextJob` inside the outermost `try` (lines 112-237):
optional stale-lock recovery, claim, execution insert, then the attempt. -/
def tickBody (cfg : WorkerCfg) (f : Faults) (s0 : Store) :
    Except (String × Store) Store :=
  match (if f.recoveryFires then
           match f.recoveryFault with
           | some m => Except.error (m, s0)
           | none => Except.ok (recoverStaleLocks cfg.cutoff s0)
         else Except.ok s0 : Except (String × Store) Store) with
  | Except.error e => Except.error e
  | Except.ok s1 =>
    match f.claimFault with
    | some m => Except.error (m, s1)
    | none =>
      match claimNextJob cfg s1 with
      | (none, _) => Except.ok s1
      | (some j, s2) =>
        match f.execCreateFault with
        | some m => Except.error (m, s2)
        | none =>
          match createExecution j.id (j.attempts + 1) cfg.now s2 with
          | (execId, s3) => attemptPhase cfg f j execId s3

/-- `processNextJob` (part_004 lines 110-241): the tick body wrapped in the
outermost catch, which logs the error and returns normally, leaving whatever
writes already committed in place. -/
def processNextJob (cfg : WorkerCfg) (f : Faults) (s : Store) : Store :=
  match tickBody cfg f s with
  | Except.ok t => t
  | Except.error (_, t) => t

/-! Job service (`ReportsService`, reports.service.ts, semantic-dedup
variant, lines 154-222). -/

/-- The submission body (`CreateReportDto`). -/
structure CreateReportDto where
  tenantId : String
  rtype : String
  params : ReportParams
deriving DecidableEq, Repr

/-- The `WHERE` clause of `findExistingSemanticReport`: same tenant, type
and params, and status `COMPLETED` or `RUNNING`. -/
def semMatches (dto : CreateReportDto) (r : Report) : Bool :=
  r.tenantId = dto.tenantId && r.rtype = dto.rtype && r.params = dto.params &&
    (r.status = ReportStatus.COMPLETED || r.status = ReportStatus.RUNNING)

/-- The `CASE status` priority of the semantic lookup's `ORDER BY`:
`COMPLETED` before `RUNNING`. -/
def statusPrio (st : ReportStatus) : Nat :=
  match st with
  | ReportStatus.COMPLETED => 1
  | _ => 2

/-- `a` strictly precedes `b` in
`ORDER BY CASE status ..., created_at DESC`. -/
def semBefore (a b : Report) : Bool :=
  statusPrio a.status < statusPrio b.status ||
    (statusPrio a.status = statusPrio b.status && b.createdAt < a.createdAt)

/-- `LIMIT 1` of the semantic lookup: the first row (in table order) that no
later row strictly precedes. -/
def pickSemantic (p : Report → Bool) : List Report → Option Report
  | [] => none
  | r :: rs =>
    match pickSemantic p rs with
    | none => if p r then some r else none
    | some b => if p r && !semBefore b r then some r else some b

/-- `findExistingSemanticReport` (reports.service.ts lines 191-222). -/
def findExistingSemanticReport (dto : CreateReportDto) (s : Store) :
    Option Report :=
  pickSemantic (semMatches dto) s.reports

/-- `ReportsService.create`, semantic variant (lines 154-182): return the
semantic hit if one exists, else insert a fresh `PENDING` row.  `newId` is
the id the database assigns on insert, `now` its `created_at`. -/
def reportsCreate (dto : CreateReportDto) (newId : Nat) (now : Int)
    (s : Store) : Report × Store :=
  match findExistingSemanticReport dto s with
  | some r => (r, s)
  | none =>
    let r : Report :=
      { id := newId, tenantId := dto.tenantId, rtype := dto.rtype,
        params := dto.params, status := ReportStatus.PENDING, attempts := 0,
        idempotencyKey := none, lockedAt := none, lockedBy := none,
        createdAt := now }
    (r, { s with reports := s.reports ++ [r] })

/-! List by tenant (`ReportsService.findByTenant`). -/

/-- The `where` object built by `findByTenant`: tenant, the optional status
and type filters, and `id: gt cursor` when a cursor is given. -/
def listMatches (tenantId : String) (status : Option ReportStatus)
    (rtype : Option String) (cursor : Option Nat) (r : Report) : Bool :=
  r.tenantId = tenantId &&
    (match status with | none => true | some st => r.status = st) &&
    (match rtype with | none => true | some ty => r.rtype = ty) &&
    (match cursor with | none => true | some c => c < r.id)

/-- Insert into a list kept in `created_at` descending order. -/
def insertByCreatedDesc (r : Report) : List Report → List Report
  | [] => [r]
  | b :: bs =>
    if b.createdAt ≤ r.createdAt then r :: b :: bs
    else b :: insertByCreatedDesc r bs

/-- `orderBy createdAt desc` as a sort. -/
def sortByCreatedDesc : List Report → List Report
  | [] => []
  | r :: rs => insertByCreatedDesc r (sortByCreatedDesc rs)

/-- `ReportsService.findByTenant` (lines 237-269): filter, order
`created_at DESC`, fetch `limit + 1` rows, return the first `limit` and a
`nextCursor` (the id of the last returned row) when an extra row came back. -/
def findByTenant (tenantId : String) (status : Option ReportStatus)
    (rtype : Option String) (limit : Nat) (cursor : Option Nat) (s : Store) :
    List Report × Option Nat :=
  let fetched :=
    (sortByCreatedDesc
      (s.reports.filter (listMatches tenantId status rtype cursor))).take
      (limit + 1)
  let hasNext := decide (limit < fetched.length)
  let results := if hasNext then fetched.take limit else fetched
  (results,
   if hasNext then (results.getLast?).map Report.id else none)

/-! Idempotency broker (`IdempotencyService`).  Two variants are in the
sources: part_002 (the key-backfill variant wired to the semantic create)
and part_003 (the direct insert-with-key variant). -/

/-- `findReportByKey`: `findUnique` on the unique `idempotency_key` column. -/
def findByKey (k : String) (s : Store) : Option Report :=
  s.reports.find? (fun r => r.idempotencyKey = some k)

/-- The key-backfill `report.update`: raises `P2002` on `idempotency_key`
exactly when some row already carries the key (the `UNIQUE` constraint);
otherwise writes the key onto the row with the given id. -/
def setIdemKey (rid : Nat) (k : String) (s : Store) : Except Unit Store :=
  if s.reports.any (fun r => r.idempotencyKey = some k) then Except.error ()
  else Except.ok (updateReport rid (fun r => { r with idempotencyKey := some k }) s)

/-- The `report.create` of the part_003 variant, inserting with the key
stored: raises `P2002` on `idempotency_key` when some row already carries
the key. -/
def insertReportWithKey (dto : CreateReportDto) (k : String) (newId : Nat)
    (now : Int) (s : Store) : Except Unit (Report × Store) :=
  if s.reports.any (fun r => r.idempotencyKey = some k) then Except.error ()
  else
    let r : Report :=
      { id := newId, tenantId := dto.tenantId, rtype := dto.rtype,
        params := dto.params, status := ReportStatus.PENDING, attempts := 0,
        idempotencyKey := some k, lockedAt := none, lockedBy := none,
        createdAt := now }
    Except.ok (r, { s with reports := s.reports ++ [r] })

/-- The key-miss continuation of the backfill variant: business create, then
the key backfill with its `P2002` handler (part_002 lines 35-64). -/
def findOrCreateBackfillMiss (dto : CreateReportDto) (k : String)
    (newId : Nat) (now : Int) (race : Store → Store) (s : Store) :
    (Report × Bool) × Store :=
  match reportsCreate dto newId now s with
  | (result, s1) =>
    let wasCreated := result.status = ReportStatus.PENDING
    if result.idempotencyKey = none then
      let s2 := race s1
      match setIdemKey result.id k s2 with
      | Except.ok s3 =>
        match findByKey k s3 with
        | some updated => ((updated, wasCreated), s3)
        | none => ((result, wasCreated), s3)
      | Except.error _ =>
        match findByKey k s2 with
        | some existing => ((existing, false), s2)
        | none => ((result, wasCreated), s2)
    else
      ((result, wasCreated), s1)

/-- `IdempotencyService.findOrCreateReport`, key-backfill variant (part_002
lines 19-65), with `businessCreateFn` the semantic `ReportsService.create`.
`race` is applied to the store between the business create and the backfill
update, modelling writes committed by concurrent requests in that window.
Returns the chosen report, the reported `created` flag, and the store. -/
def findOrCreateBackfill (dto : CreateReportDto) (key : Option String)
    (newId : Nat) (now : Int) (race : Store → Store) (s : Store) :
    (Report × Bool) × Store :=
  match key with
  | some k =>
    match findByKey k s with
    | some existing => ((existing, false), s)
    | none => findOrCreateBackfillMiss dto k newId now race s
  | none =>
    let rs := reportsCreate dto newId now s
    ((rs.1, rs.1.status = ReportStatus.PENDING), rs.2)

/-- `IdempotencyService.findOrCreateReport`, insert-with-key variant
(part_003 lines 14-58).  `race` is applied between the key lookup and the
insert.  The `Except.error` outcome is the `ConflictException` the source
throws when the re-read after a duplicate-key violation finds nothing. -/
def findOrCreateInsert (dto : CreateReportDto) (key : Option String)
    (newId : Nat) (now : Int) (race : Store → Store) (s : Store) :
    Except Unit ((Report × Bool) × Store) :=
  match key with
  | none =>
    let rs := reportsCreate dto newId now s
    Except.ok ((rs.1, true), rs.2)
  | some k =>
    match findByKey k s with
    | some existing => Except.ok ((existing, false), s)
    | none =>
      let s1 := race s
      match insertReportWithKey dto k newId now s1 with
      | Except.ok (r, s2) => Except.ok ((r, true), s2)
      | Except.error _ =>
        match findByKey k s1 with
        | some existing => Except.ok ((existing, false), s1)
        | none => Except.error ()

/-! Health endpoint. -/

/-- The body `AppService.getHealth` (app.service.ts lines 8-24) returns:
the probe either answers or throws, and the catch converts the throw into
an `unhealthy` body instead of propagating. -/
structure HealthBody where
  status : String
  database : String
  errMsg : Option String
deriving DecidableEq, Repr

/-- `AppService.getHealth`: `probeOk` is whether `SELECT 1` succeeded. -/
def getHealth (probeOk : Bool) (errMsg : String) : HealthBody :=
  if probeOk then
    { status := "healthy", database := "connected", errMsg := none }
  else
    { status := "unhealthy", database := "disconnected", errMsg := some errMsg }

/-- Modelled from the spec: the health controller (src/app.controller.ts is
not among the sources) maps the probe outcome to the HTTP status — 200 when
the store answered the trivial probe, 503 otherwise. -/
def healthHttpStatus (body : HealthBody) : Nat :=
  if body.status = "healthy" then 200 else 503

/-! Lemmas about the row-selection helpers. -/

theorem pickOldest_mem {p : Report → Bool} {l : List Report} {j : Report}
    (h : pickOldest p l = some j) : j ∈ l := by
  induction l generalizing j with
  | nil => simp [pickOldest] at h
  | cons r rs ih =>
    cases hrec : pickOldest p rs with
    | none =>
      simp only [pickOldest, hrec] at h
      split at h
      · injection h with h; subst h; exact List.mem_cons_self r rs
      · cases h
    | some b =>
      simp only [pickOldest, hrec] at h
      split at h
      · injection h with h; subst h; exact List.mem_cons_self r rs
      · injection h with h; subst h
        exact List.mem_cons_of_mem r (ih hrec)

theorem pickOldest_prop {p : Report → Bool} {l : List Report} {j : Report}
    (h : pickOldest p l = some j) : p j = true := by
  induction l generalizing j with
  | nil => simp [pickOldest] at h
  | cons r rs ih =>
    cases hrec : pickOldest p rs with
    | none =>
      simp only [pickOldest, hrec] at h
      split at h
      next hp => injection h with h; subst h; exact hp
      next hp => cases h
    | some b =>
      simp only [pickOldest, hrec] at h
      split at h
      next hc =>
        injection h with h; subst h
        simp only [Bool.and_eq_true] at hc
        exact hc.1
      next hc => injection h with h; subst h; exact ih hrec

theorem pickOldest_none {p : Report → Bool} {l : List Report}
    (h : pickOldest p l = none) : ∀ r ∈ l, p r = false := by
  induction l with
  | nil => simp
  | cons r rs ih =>
    cases hrec : pickOldest p rs with
    | none =>
      simp only [pickOldest, hrec] at h
      split at h
      next hp => cases h
      next hp =>
        intro x hx
        rcases List.mem_cons.mp hx with rfl | hxrs
        · exact Bool.not_eq_true _ ▸ eq_false_of_ne_true hp
        · exact ih hrec x hxrs
    | some b =>
      simp only [pickOldest, hrec] at h
      split at h <;> cases h

theorem pickOldest_oldest {p : Report → Bool} {l : List Report} {j : Report}
    (h : pickOldest p l = some j) :
    ∀ r ∈ l, p r = true → j.createdAt ≤ r.createdAt := by
  induction l generalizing j with
  | nil => simp [pickOldest] at h
  | cons r rs ih =>
    intro x hx hpx
    cases hrec : pickOldest p rs with
    | none =>
      simp only [pickOldest, hrec] at h
      split at h
      next hp =>
        injection h with h; subst h
        rcases List.mem_cons.mp hx with rfl | hxrs
        · exact le_refl _
        · rw [pickOldest_none hrec x hxrs] at hpx; cases hpx
      next hp => cases h
    | some b =>
      simp only [pickOldest, hrec] at h
      split at h
      next hc =>
        injection h with h; subst h
        simp only [Bool.and_eq_true, decide_eq_true_eq] at hc
        rcases List.mem_cons.mp hx with rfl | hxrs
        · exact le_refl _
        · exact le_trans hc.2 (ih hrec x hxrs hpx)
      next hc =>
        injection h with h; subst h
        rcases List.mem_cons.mp hx with rfl | hxrs
        · simp only [Bool.and_eq_true, decide_eq_true_eq, not_and, hpx,
            true_implies] at hc
          exact le_of_lt (lt_of_not_le hc)
        · exact ih hrec x hxrs hpx

theorem semBefore_irrefl (a : Report) : semBefore a a = false := by
  simp [semBefore]

theorem semBefore_asymm {a b : Report} (h : semBefore a b = true) :
    semBefore b a = false := by
  simp only [semBefore, Bool.or_eq_true, Bool.and_eq_true, decide_eq_true_eq,
    Bool.or_eq_false_iff, Bool.and_eq_false_iff] at h ⊢
  rcases h with h | ⟨h1, h2⟩
  · constructor
    · simp only [decide_eq_false_iff_not]; omega
    · left; simp only [decide_eq_false_iff_not]; omega
  · constructor
    · simp only [decide_eq_false_iff_not]; omega
    · right; simp only [decide_eq_false_iff_not]; omega

theorem semBefore_false_trans {a b c : Report} (h1 : semBefore b a = false)
    (h2 : semBefore c b = false) : semBefore c a = false := by
  simp only [semBefore, Bool.or_eq_false_iff, Bool.and_eq_false_iff,
    decide_eq_false_iff_not] at h1 h2 ⊢
  obtain ⟨h1a, h1b⟩ := h1
  obtain ⟨h2a, h2b⟩ := h2
  constructor
  · omega
  · rcases h1b with h | h <;> rcases h2b with h' | h'
    · left; omega
    · left; omega
    · left; omega
    · right; omega

theorem pickSemantic_mem {p : Report → Bool} {l : List Report} {j : Report}
    (h : pickSemantic p l = some j) : j ∈ l := by
  induction l generalizing j with
  | nil => simp [pickSemantic] at h
  | cons r rs ih =>
    cases hrec : pickSemantic p rs with
    | none =>
      simp only [pickSemantic, hrec] at h
      split at h
      · injection h with h; subst h; exact List.mem_cons_self r rs
      · cases h
    | some b =>
      simp only [pickSemantic, hrec] at h
      split at h
      · injection h with h; subst h; exact List.mem_cons_self r rs
      · injection h with h; subst h
        exact List.mem_cons_of_mem r (ih hrec)

theorem pickSemantic_prop {p : Report → Bool} {l : List Report} {j : Report}
    (h : pickSemantic p l = some j) : p j = true := by
  induction l generalizing j with
  | nil => simp [pickSemantic] at h
  | cons r rs ih =>
    cases hrec : pickSemantic p rs with
    | none =>
      simp only [pickSemantic, hrec] at h
      split at h
      next hp => injection h with h; subst h; exact hp
      next hp => cases h
    | some b =>
      simp only [pickSemantic, hrec] at h
      split at h
      next hc =>
        injection h with h; subst h
        simp only [Bool.and_eq_true] at hc
        exact hc.1
      next hc => injection h with h; subst h; exact ih hrec

theorem pickSemantic_none {p : Report → Bool} {l : List Report}
    (h : pickSemantic p l = none) : ∀ r ∈ l, p r = false := by
  induction l with
  | nil => simp
  | cons r rs ih =>
    cases hrec : pickSemantic p rs with
    | none =>
      simp only [pickSemantic, hrec] at h
      split at h
      next hp => cases h
      next hp =>
        intro x hx
        rcases List.mem_cons.mp hx with rfl | hxrs
        · exact Bool.not_eq_true _ ▸ eq_false_of_ne_true hp
        · exact ih hrec x hxrs
    | some b =>
      simp only [pickSemantic, hrec] at h
      split at h <;> cases h

theorem pickSemantic_best {p : Report → Bool} {l : List Report} {j : Report}
    (h : pickSemantic p l = some j) :
    ∀ r ∈ l, p r = true → semBefore r j = false := by
  induction l generalizing j with
  | nil => simp [pickSemantic] at h
  | cons r rs ih =>
    intro x hx hpx
    cases hrec : pickSemantic p rs with
    | none =>
      simp only [pickSemantic, hrec] at h
      split at h
      next hp =>
        injection h with h; subst h
        rcases List.mem_cons.mp hx with rfl | hxrs
        · exact semBefore_irrefl x
        · rw [pickSemantic_none hrec x hxrs] at hpx; cases hpx
      next hp => cases h
    | some b =>
      simp only [pickSemantic, hrec] at h
      split at h
      next hc =>
        injection h with h; subst h
        simp only [Bool.and_eq_true, Bool.not_eq_true'] at hc
        rcases List.mem_cons.mp hx with rfl | hxrs
        · exact semBefore_irrefl x
        · exact semBefore_false_trans hc.2 (ih hrec x hxrs hpx)
      next hc =>
        injection h with h; subst h
        rcases List.mem_cons.mp hx with rfl | hxrs
        · simp only [Bool.and_eq_true, Bool.not_eq_true', hpx, true_and] at hc
          exact semBefore_asymm (Bool.not_eq_false _ ▸ hc)
        · exact ih hrec x hxrs hpx

/-! Lemmas about row lookup after an update keyed by id. -/

theorem find?_id_map_update (l : List Report) (rid : Nat)
    (g : Report → Report) (hid : ∀ r, (g r).id = r.id) :
    (l.map (fun r => if r.id = rid then g r else r)).find?
        (fun r => r.id = rid) =
      (l.find? (fun r => r.id = rid)).map g := by
  induction l with
  | nil => simp
  | cons r rs ih =>
    by_cases hr : r.id = rid
    · rw [List.map_cons, if_pos hr,
        List.find?_cons_of_pos _ (by simp [hid, hr]),
        List.find?_cons_of_pos _ (by simp [hr])]
      simp
    · rw [List.map_cons, if_neg hr,
        List.find?_cons_of_neg _ (by simp [hr]),
        List.find?_cons_of_neg _ (by simp [hr])]
      exact ih

theorem find?_id_of_nodup {l : List Report} {j : Report}
    (hn : (l.map Report.id).Nodup) (hm : j ∈ l) :
    l.find? (fun r => r.id = j.id) = some j := by
  induction l with
  | nil => simp at hm
  | cons r rs ih =>
    simp only [List.map_cons, List.nodup_cons] at hn
    rcases List.mem_cons.mp hm with rfl | hmem
    · rw [List.find?_cons_of_pos]; simp
    · by_cases hr : r.id = j.id
      · exfalso
        exact hn.1 (hr ▸ List.mem_map_of_mem Report.id hmem)
      · rw [List.find?_cons_of_neg]
        · exact ih hn.2 hmem
        · simp [hr]

theorem find?_id_map_other (l : List Report) (rid : Nat)
    (g : Report → Report) (hid : ∀ r, (g r).id = r.id) (q : Nat)
    (hq : q ≠ rid) :
    (l.map (fun r => if r.id = rid then g r else r)).find?
        (fun r => r.id = q) =
      (l.find? (fun r => r.id = q)).map
        (fun r => if r.id = rid then g r else r) := by
  induction l with
  | nil => simp
  | cons r rs ih =>
    by_cases hr : r.id = q
    · have hnr : ¬ r.id = rid := by omega
      rw [List.map_cons, if_neg hnr,
        List.find?_cons_of_pos _ (by simp [hr]),
        List.find?_cons_of_pos _ (by simp [hr])]
      simp [if_neg hnr]
    · rw [List.map_cons]
      by_cases hc : r.id = rid
      · rw [if_pos hc,
          List.find?_cons_of_neg _ (by simp only [hid]; simp [hr]),
          List.find?_cons_of_neg _ (by simp [hr])]
        exact ih
      · rw [if_neg hc,
          List.find?_cons_of_neg _ (by simp [hr]),
          List.find?_cons_of_neg _ (by simp [hr])]
        exact ih

/-- Closing an execution whose id is fresh for every row of a list leaves
the list unchanged; the appended fresh row is the only one rewritten. -/
theorem map_close_fresh {l : List Execution} {n : Nat}
    (h : ∀ e ∈ l, e.id < n) (g : Execution → Execution) :
    l.map (fun e => if e.id = n then g e else e) = l := by
  induction l with
  | nil => simp
  | cons e es ih =>
    have he := h e (List.mem_cons_self e es)
    simp only [List.map_cons, if_neg (by omega : ¬ e.id = n)]
    rw [ih (fun x hx => h x (List.mem_cons_of_mem e hx))]

/-- The Boolean claim-eligibility test agrees with the spec-level predicate. -/
theorem eligible_iff (c : Int) (r : Report) :
    eligible c r = true ↔
      (r.status = ReportStatus.PENDING ∧
        (r.lockedAt = none ∨ ∃ t, r.lockedAt = some t ∧ t < c)) := by
  cases hl : r.lockedAt with
  | none => simp [eligible, hl]
  | some t => simp [eligible, hl]

/-- The Boolean stale-lock test agrees with the spec-level predicate. -/
theorem staleCond_iff (c : Int) (r : Report) :
    staleCond c r = true ↔
      (r.status = ReportStatus.RUNNING ∧
        ∃ t, r.lockedAt = some t ∧ t < c) := by
  cases hl : r.lockedAt with
  | none => simp [staleCond, hl]
  | some t => simp [staleCond, hl]

/-- Claim C7: stale-lease recovery resets exactly the jobs in state
`RUNNING` whose `locked_at` is earlier than the stale cutoff — each such
row's state becomes `PENDING` with both lease fields cleared while its
attempts counter and every other field are unchanged — and rows not
matching the condition, and the other two tables, are not modified. -/
theorem recoverStaleLocks_spec (cutoff : Int) (s : Store) :
    (recoverStaleLocks cutoff s).artifacts = s.artifacts ∧
    (recoverStaleLocks cutoff s).executions = s.executions ∧
    (recoverStaleLocks cutoff s).reports.length = s.reports.length ∧
    (∀ i, (hi : i < s.reports.length) →
      (hj : i < (recoverStaleLocks cutoff s).reports.length) →
      (((s.reports.get ⟨i, hi⟩).status = ReportStatus.RUNNING ∧
        (∃ t, (s.reports.get ⟨i, hi⟩).lockedAt = some t ∧ t < cutoff)) →
        (recoverStaleLocks cutoff s).reports.get ⟨i, hj⟩ =
          { s.reports.get ⟨i, hi⟩ with
              status := ReportStatus.PENDING
              lockedAt := none
              lockedBy := none }) ∧
      (¬ ((s.reports.get ⟨i, hi⟩).status = ReportStatus.RUNNING ∧
        (∃ t, (s.reports.get ⟨i, hi⟩).lockedAt = some t ∧ t < cutoff)) →
        (recoverStaleLocks cutoff s).reports.get ⟨i, hj⟩ =
          s.reports.get ⟨i, hi⟩) ∧
      ((recoverStaleLocks cutoff s).reports.get ⟨i, hj⟩).attempts =
        (s.reports.get ⟨i, hi⟩).attempts) := by
  refine ⟨rfl, rfl, by simp [recoverStaleLocks], ?thm⟩
  intro i hi hj
  have hget : (recoverStaleLocks cutoff s).reports.get ⟨i, hj⟩ =
      staleReset cutoff (s.reports.get ⟨i, hi⟩) := by
    simp [recoverStaleLocks, List.getElem_map]
  refine ⟨?ha, ?hb, ?hc⟩
  · intro hcond
    rw [hget, staleReset, if_pos ((staleCond_iff cutoff _).mpr hcond)]
  · intro hcond
    rw [hget, staleReset,
      if_neg (fun hb => hcond ((staleCond_iff cutoff _).mp hb))]
  · rw [hget, staleReset]
    split <;> rfl

/-! Concrete fixtures used by the witness theorems. -/

/-- A fixed params payload. -/
def fxParams : ReportParams :=
  { fromDate := "2024-01-01", toDate := "2024-01-31",
    format := ReportFormat.CSV }

/-- A pending, unlocked job. -/
def fxPending : Report :=
  { id := 1, tenantId := "t1", rtype := "USAGE_SUMMARY", params := fxParams,
    status := ReportStatus.PENDING, attempts := 0, idempotencyKey := none,
    lockedAt := none, lockedBy := none, createdAt := 7 }

/-- A completed job with the same payload, created earlier. -/
def fxCompleted : Report :=
  { id := 2, tenantId := "t1", rtype := "USAGE_SUMMARY", params := fxParams,
    status := ReportStatus.COMPLETED, attempts := 1, idempotencyKey := none,
    lockedAt := none, lockedBy := none, createdAt := 3 }

/-- A running job whose lease is stale for any cutoff above 0. -/
def fxRunningStale : Report :=
  { id := 5, tenantId := "t1", rtype := "USAGE_SUMMARY", params := fxParams,
    status := ReportStatus.RUNNING, attempts := 2, idempotencyKey := none,
    lockedAt := some 0, lockedBy := some "w0", createdAt := 0 }

/-- A store with one completed and one pending job. -/
def fxStore1 : Store :=
  { reports := [fxCompleted, fxPending], artifacts := [], executions := [],
    nextExecId := 0, nextArtifactId := 0 }

/-- A store with one stale running job. -/
def fxStoreStale : Store :=
  { reports := [fxRunningStale], artifacts := [], executions := [],
    nextExecId := 0, nextArtifactId := 0 }

/-- The store after the fixture claim. -/
def fxClaimed : Store :=
  (claimNextJob ⟨100 - 60, 100, "w1", 3, fun _ => false⟩ fxStore1).2

/-- Witness for `recoverStaleLocks_spec` at a store holding one stale
`RUNNING` row. -/
theorem recoverStaleLocks_spec_witness :
    (recoverStaleLocks 50 fxStoreStale).reports.get ⟨0, by decide⟩ =
        { fxRunningStale with
            status := ReportStatus.PENDING
            lockedAt := none
            lockedBy := none } ∧
      ((recoverStaleLocks 50 fxStoreStale).reports.get ⟨0, by decide⟩).attempts =
        fxRunningStale.attempts := by
  refine ⟨((recoverStaleLocks_spec 50 fxStoreStale).2.2.2 0 (by decide)
    (by decide)).1 ⟨rfl, 0, rfl, by decide⟩,
    ((recoverStaleLocks_spec 50 fxStoreStale).2.2.2 0 (by decide)
      (by decide)).2.2⟩

/-- Destructuring of a successful claim. -/
theorem claimNextJob_eq_some {cfg : WorkerCfg} {s : Store} {j : Report}
    {s2 : Store} (h : claimNextJob cfg s = (some j, s2)) :
    pickOldest (fun r => eligible cfg.cutoff r && !cfg.held r.id) s.reports =
        some j ∧
      s2 = updateReport j.id (claimUpdate cfg) s := by
  cases hp : pickOldest (fun r => eligible cfg.cutoff r && !cfg.held r.id)
      s.reports with
  | none =>
    simp only [claimNextJob, hp, Prod.mk.injEq] at h
    exact Option.noConfusion h.1
  | some b =>
    simp only [claimNextJob, hp, Prod.mk.injEq, Option.some.injEq] at h
    obtain ⟨h1, h2⟩ := h
    subst h1
    exact ⟨rfl, h2.symm⟩

/-- Claim C2: the claim operation selects the oldest `PENDING` job whose
lease is absent or stale, skipping rows locked by other transactions, and
updates exactly that row to `RUNNING` with the lease set to the claim
instant and worker id; when no job is eligible it returns nothing and
changes no row. -/
theorem claimNextJob_correct (staleMs tnow : Int) (wid : String) (ma : Nat)
    (held : Nat → Bool) (s : Store) :
    (∀ j s2,
      claimNextJob ⟨tnow - staleMs, tnow, wid, ma, held⟩ s = (some j, s2) →
      j ∈ s.reports ∧ j.status = ReportStatus.PENDING ∧
      (j.lockedAt = none ∨ ∃ t, j.lockedAt = some t ∧ t < tnow - staleMs) ∧
      held j.id = false ∧
      (∀ r ∈ s.reports, r.status = ReportStatus.PENDING →
        (r.lockedAt = none ∨ ∃ t, r.lockedAt = some t ∧ t < tnow - staleMs) →
        held r.id = false → j.createdAt ≤ r.createdAt) ∧
      s2.artifacts = s.artifacts ∧ s2.executions = s.executions ∧
      s2.reports.length = s.reports.length ∧
      (∀ r2 ∈ s2.reports, r2.id = j.id →
        r2.status = ReportStatus.RUNNING ∧ r2.lockedAt = some tnow ∧
          r2.lockedBy = some wid) ∧
      (∀ r2 ∈ s2.reports, r2.id ≠ j.id → r2 ∈ s.reports)) ∧
    (∀ s2, claimNextJob ⟨tnow - staleMs, tnow, wid, ma, held⟩ s = (none, s2) →
      s2 = s ∧
      ∀ r ∈ s.reports, r.status = ReportStatus.PENDING →
        (r.lockedAt = none ∨ ∃ t, r.lockedAt = some t ∧ t < tnow - staleMs) →
        held r.id = true) := by
  constructor
  · intro j s2 h
    obtain ⟨hp, hs2⟩ := claimNextJob_eq_some h
    have hmem := pickOldest_mem hp
    have hprop := pickOldest_prop hp
    simp only [Bool.and_eq_true, Bool.not_eq_true'] at hprop
    have helig := (eligible_iff _ j).mp hprop.1
    refine ⟨hmem, helig.1, helig.2, hprop.2, ?old, ?rest⟩
    case old =>
      intro r hr hst hlk hh
      exact pickOldest_oldest hp r hr
        (by simp only [Bool.and_eq_true, Bool.not_eq_true']
            exact ⟨(eligible_iff _ r).mpr ⟨hst, hlk⟩, hh⟩)
    case rest =>
      subst hs2
      refine ⟨rfl, rfl, by simp [updateReport], ?upd, ?oth⟩
      case upd =>
        intro r2 hr2 hid
        simp only [updateReport, List.mem_map] at hr2
        obtain ⟨r, hr, hre⟩ := hr2
        by_cases hc : r.id = j.id
        · rw [if_pos hc] at hre
          rw [← hre]
          exact ⟨rfl, rfl, rfl⟩
        · rw [if_neg hc] at hre
          rw [← hre] at hid
          exact absurd hid hc
      case oth =>
        intro r2 hr2 hid
        simp only [updateReport, List.mem_map] at hr2
        obtain ⟨r, hr, hre⟩ := hr2
        by_cases hc : r.id = j.id
        · rw [if_pos hc] at hre
          exact absurd (by rw [← hre]; exact hc) hid
        · rw [if_neg hc] at hre
          exact hre ▸ hr
  · intro s2 h
    cases hp : pickOldest (fun r => eligible (tnow - staleMs) r && !held r.id)
        s.reports with
    | none =>
      simp only [claimNextJob, hp, Prod.mk.injEq] at h
      refine ⟨h.2.symm, ?none⟩
      intro r hr hst hlk
      have := pickOldest_none hp r hr
      simp only [Bool.and_eq_false_iff] at this
      rcases this with hbad | hh
      · rw [(eligible_iff _ r).mpr ⟨hst, hlk⟩] at hbad; cases hbad
      · simpa using hh
    | some b =>
      simp only [claimNextJob, hp, Prod.mk.injEq] at h
      exact Option.noConfusion h.1

/-- Witness for `claimNextJob_correct`: at `fxStore1` the claim picks
`fxPending`, and the theorem applies. -/
theorem claimNextJob_correct_witness :
    fxPending ∈ fxStore1.reports ∧
      fxPending.status = ReportStatus.PENDING ∧
      statusOf fxPending.id fxClaimed = some ReportStatus.RUNNING := by
  have h : claimNextJob ⟨100 - 60, 100, "w1", 3, fun _ => false⟩ fxStore1 =
      (some fxPending, fxClaimed) := by decide
  have hm := (claimNextJob_correct 60 100 "w1" 3 (fun _ => false)
    fxStore1).1 fxPending fxClaimed h
  exact ⟨hm.1, hm.2.1, by decide⟩

/-- Claim C9: the health endpoint answers 200 exactly when the store
responded to the trivial probe and 503 when it did not. -/
theorem health_status_correct (msg : String) :
    healthHttpStatus (getHealth true msg) = 200 ∧
    healthHttpStatus (getHealth false msg) = 503 := by
  constructor <;> rfl

/-- A successful claim, reconstructed from its first component. -/
theorem claim_fst_some {cfg : WorkerCfg} {s : Store} {j : Report}
    (h : (claimNextJob cfg s).1 = some j) :
    claimNextJob cfg s = (some j, updateReport j.id (claimUpdate cfg) s) ∧
      pickOldest (fun r => eligible cfg.cutoff r && !cfg.held r.id)
        s.reports = some j := by
  cases hp : pickOldest (fun r => eligible cfg.cutoff r && !cfg.held r.id)
      s.reports with
  | none => simp only [claimNextJob, hp] at h; cases h
  | some b =>
    simp only [claimNextJob, hp] at h
    injection h with h
    subst h
    exact ⟨by simp only [claimNextJob, hp], rfl⟩

/-- Row lookup of the updated id after `updateReport`. -/
theorem find?_updateReport_self (s : Store) (rid : Nat)
    (g : Report → Report) (hid : ∀ r, (g r).id = r.id) :
    (updateReport rid g s).reports.find? (fun r => r.id = rid) =
      (s.reports.find? (fun r => r.id = rid)).map g :=
  find?_id_map_update s.reports rid g hid

/-- Row lookup of a different id after `updateReport`. -/
theorem find?_updateReport_other (s : Store) (rid : Nat)
    (g : Report → Report) (hid : ∀ r, (g r).id = r.id) (q : Nat)
    (hq : q ≠ rid) :
    (updateReport rid g s).reports.find? (fun r => r.id = q) =
      (s.reports.find? (fun r => r.id = q)).map
        (fun r => if r.id = rid then g r else r) :=
  find?_id_map_other s.reports rid g hid q hq

/-- Claim C1: when the artifact insert for a claimed job hits the
uniqueness violation on the artifact's job id, the tick inserts no second
artifact, marks the job `COMPLETED` with both lease fields cleared and the
attempts counter unchanged, and closes the execution record. -/
theorem tick_converge_correct (cfg : WorkerCfg) (art : ArtifactData)
    (s : Store) (j : Report) (hwf : s.WF)
    (hclaim : (claimNextJob cfg s).1 = some j)
    (hdup : s.artifacts.any (fun a => a.reportId = j.id) = true) :
    (processNextJob cfg (Faults.clean (Except.ok art)) s).artifacts =
        s.artifacts ∧
      (∃ r2,
        (processNextJob cfg (Faults.clean (Except.ok art)) s).reports.find?
            (fun r => r.id = j.id) = some r2 ∧
          r2.status = ReportStatus.COMPLETED ∧ r2.lockedAt = none ∧
          r2.lockedBy = none ∧ r2.attempts = j.attempts) ∧
      (processNextJob cfg (Faults.clean (Except.ok art)) s).executions =
        s.executions ++
          [{ id := s.nextExecId, reportId := j.id,
             attempt := j.attempts + 1, startedAt := cfg.now,
             finishedAt := some cfg.now, error := none }] := by
  obtain ⟨hceq, hpick⟩ := claim_fst_some hclaim
  have hmem := pickOldest_mem hpick
  have hrun : processNextJob cfg (Faults.clean (Except.ok art)) s =
      closeExecutionOk s.nextExecId cfg.now
        (updateReport j.id convergeUpdate
          (createExecution j.id (j.attempts + 1) cfg.now
            (updateReport j.id (claimUpdate cfg) s)).2) := by
    simp only [processNextJob, tickBody, Faults.clean, hceq, attemptPhase,
      innerPhase, convergeBranch, insertArtifact, createExecution,
      updateReport, if_neg, hdup, if_pos, Bool.false_eq_true, if_false]
  refine ⟨?harts, ?hrow, ?hexecs⟩
  case harts => rw [hrun]; rfl
  case hrow =>
    rw [hrun]
    have hstep :
        (closeExecutionOk s.nextExecId cfg.now
          (updateReport j.id convergeUpdate
            (createExecution j.id (j.attempts + 1) cfg.now
              (updateReport j.id (claimUpdate cfg) s)).2)).reports.find?
          (fun r => r.id = j.id) =
        (updateReport j.id convergeUpdate
          (updateReport j.id (claimUpdate cfg) s)).reports.find?
          (fun r => r.id = j.id) := rfl
    rw [hstep,
      find?_updateReport_self _ j.id convergeUpdate (fun r => rfl),
      find?_updateReport_self _ j.id (claimUpdate cfg) (fun r => rfl),
      find?_id_of_nodup hwf.1 hmem]
    exact ⟨_, rfl, rfl, rfl, rfl, rfl⟩
  case hexecs =>
    rw [hrun]
    have hstep :
        (closeExecutionOk s.nextExecId cfg.now
          (updateReport j.id convergeUpdate
            (createExecution j.id (j.attempts + 1) cfg.now
              (updateReport j.id (claimUpdate cfg) s)).2)).executions =
        (s.executions ++
          ([{ id := s.nextExecId, reportId := j.id,
              attempt := j.attempts + 1, startedAt := cfg.now,
              finishedAt := none, error := none }] : List Execution)).map
          (fun e : Execution =>
            if e.id = s.nextExecId then { e with finishedAt := some cfg.now }
            else e) := rfl
    rw [hstep, List.map_append, map_close_fresh hwf.2]
    simp

/-- The fixture worker configuration. -/
def fxCfg : WorkerCfg :=
  { cutoff := 40, now := 100, workerId := "w1", maxAttempts := 3,
    held := fun _ => false }

/-- The fixture produced artifact data. -/
def fxArt : ArtifactData :=
  { contentType := "text/csv", content := "csv", sizeBytes := 3,
    checksum := "c0" }

/-- An artifact row already present for `fxPending`. -/
def fxArtifactRow : Artifact :=
  { id := 9, reportId := 1, contentType := "text/csv", content := "old",
    sizeBytes := 3, checksum := "c9" }

/-- A store where `fxPending` is claimable and its artifact already exists
(the crash-after-artifact-insert scenario). -/
def fxStoreDup : Store :=
  { reports := [fxPending], artifacts := [fxArtifactRow], executions := [],
    nextExecId := 0, nextArtifactId := 10 }

/-- A store where `fxPending` is claimable and no artifact exists. -/
def fxStorePend : Store :=
  { reports := [fxPending], artifacts := [], executions := [],
    nextExecId := 0, nextArtifactId := 0 }

/-- Witness for `tick_converge_correct`: one tick on `fxStoreDup`. -/
theorem tick_converge_correct_witness :
    (processNextJob fxCfg (Faults.clean (Except.ok fxArt))
        fxStoreDup).artifacts = fxStoreDup.artifacts ∧
      (∃ r2,
        (processNextJob fxCfg (Faults.clean (Except.ok fxArt))
            fxStoreDup).reports.find? (fun r => r.id = fxPending.id) =
          some r2 ∧
          r2.status = ReportStatus.COMPLETED ∧ r2.lockedAt = none ∧
          r2.lockedBy = none ∧ r2.attempts = fxPending.attempts) := by
  have h := tick_converge_correct fxCfg fxArt fxStoreDup fxPending
    (by decide) (by decide) (by decide)
  exact ⟨h.1, h.2.1⟩

/-- Claim C3: when execution of a claimed job fails — producer error, or a
non-duplicate store error at the artifact insert — the failure path sets
the job to `PENDING` when `attempts + 1 < maxAttempts` and to `FAILED`
otherwise, with attempts incremented and both lease fields cleared, and
closes the execution record with the error message. -/
theorem tick_failure_correct (cfg : WorkerCfg) (f : Faults) (s : Store)
    (j : Report) (msg : String) (hwf : s.WF)
    (hclaim : (claimNextJob cfg s).1 = some j)
    (hrec : f.recoveryFires = false) (hcf : f.claimFault = none)
    (hec : f.execCreateFault = none)
    (hmode : f.producer = Except.error msg ∨
      (∃ art, f.producer = Except.ok art ∧
        f.artifactInsertFault = some msg))
    (hfu : f.failUpdateFault = none) (hfe : f.failExecFault = none) :
    (processNextJob cfg f s).artifacts = s.artifacts ∧
      (∃ r2,
        (processNextJob cfg f s).reports.find? (fun r => r.id = j.id) =
          some r2 ∧
          r2.status = (if j.attempts + 1 < cfg.maxAttempts
            then ReportStatus.PENDING else ReportStatus.FAILED) ∧
          r2.attempts = j.attempts + 1 ∧ r2.lockedAt = none ∧
          r2.lockedBy = none) ∧
      (processNextJob cfg f s).executions =
        s.executions ++
          [{ id := s.nextExecId, reportId := j.id,
             attempt := j.attempts + 1, startedAt := cfg.now,
             finishedAt := some cfg.now, error := some msg }] := by
  obtain ⟨hceq, hpick⟩ := claim_fst_some hclaim
  have hmem := pickOldest_mem hpick
  have hrun : processNextJob cfg f s =
      closeExecutionErr s.nextExecId cfg.now msg
        (updateReport j.id (failUpdate cfg j)
          (createExecution j.id (j.attempts + 1) cfg.now
            (updateReport j.id (claimUpdate cfg) s)).2) := by
    rcases hmode with hprod | ⟨art, hprod, haif⟩
    · simp only [processNextJob, tickBody, hrec, hcf, hceq, hec,
        attemptPhase, innerPhase, hprod, failurePath, hfu, hfe,
        createExecution, updateReport, Bool.false_eq_true, if_false]
    · simp only [processNextJob, tickBody, hrec, hcf, hceq, hec,
        attemptPhase, innerPhase, hprod, haif, failurePath, hfu, hfe,
        createExecution, updateReport, Bool.false_eq_true, if_false]
  refine ⟨?harts, ?hrow, ?hexecs⟩
  case harts => rw [hrun]; rfl
  case hrow =>
    rw [hrun]
    have hstep :
        (closeExecutionErr s.nextExecId cfg.now msg
          (updateReport j.id (failUpdate cfg j)
            (createExecution j.id (j.attempts + 1) cfg.now
              (updateReport j.id (claimUpdate cfg) s)).2)).reports.find?
          (fun r => r.id = j.id) =
        (updateReport j.id (failUpdate cfg j)
          (updateReport j.id (claimUpdate cfg) s)).reports.find?
          (fun r => r.id = j.id) := rfl
    rw [hstep,
      find?_updateReport_self _ j.id (failUpdate cfg j) (fun r => rfl),
      find?_updateReport_self _ j.id (claimUpdate cfg) (fun r => rfl),
      find?_id_of_nodup hwf.1 hmem]
    exact ⟨_, rfl, rfl, rfl, rfl, rfl⟩
  case hexecs =>
    rw [hrun]
    have hstep :
        (closeExecutionErr s.nextExecId cfg.now msg
          (updateReport j.id (failUpdate cfg j)
            (createExecution j.id (j.attempts + 1) cfg.now
              (updateReport j.id (claimUpdate cfg) s)).2)).executions =
        (s.executions ++
          ([{ id := s.nextExecId, reportId := j.id,
              attempt := j.attempts + 1, startedAt := cfg.now,
              finishedAt := none, error := none }] : List Execution)).map
          (fun e : Execution =>
            if e.id = s.nextExecId then
              { e with finishedAt := some cfg.now, error := some msg }
            else e) := rfl
    rw [hstep, List.map_append, map_close_fresh hwf.2]
    simp

/-- Witness for `tick_failure_correct`: a producer failure on
`fxStorePend`. -/
theorem tick_failure_correct_witness :
    (processNextJob fxCfg (Faults.clean (Except.error "boom"))
        fxStorePend).artifacts = fxStorePend.artifacts ∧
      (∃ r2,
        (processNextJob fxCfg (Faults.clean (Except.error "boom"))
            fxStorePend).reports.find? (fun r => r.id = fxPending.id) =
          some r2 ∧
          r2.status = (if fxPending.attempts + 1 < fxCfg.maxAttempts
            then ReportStatus.PENDING else ReportStatus.FAILED) ∧
          r2.attempts = fxPending.attempts + 1 ∧ r2.lockedAt = none ∧
          r2.lockedBy = none) := by
  have h := tick_failure_correct fxCfg (Faults.clean (Except.error "boom"))
    fxStorePend fxPending "boom" (by decide) (by decide) rfl rfl rfl
    (Or.inl rfl) rfl rfl
  exact ⟨h.1, h.2.1⟩

/-- A claim with nothing picked changes nothing. -/
theorem claim_fst_none {cfg : WorkerCfg} {s : Store}
    (h : (claimNextJob cfg s).1 = none) : claimNextJob cfg s = (none, s) := by
  cases hp : pickOldest (fun r => eligible cfg.cutoff r && !cfg.held r.id)
      s.reports with
  | none => simp only [claimNextJob, hp]
  | some b => simp only [claimNextJob, hp] at h; cases h

/-- If no row of the recovered store is claim-eligible, the recovery pass
was a no-op: any row it had reset would be eligible afterwards. -/
theorem recover_eq_self_of_no_eligible {cutoff : Int} {s : Store}
    (h : ∀ r ∈ (recoverStaleLocks cutoff s).reports,
      eligible cutoff r = false) : recoverStaleLocks cutoff s = s := by
  have hfix : ∀ r ∈ s.reports, staleReset cutoff r = r := by
    intro r hr
    have he := h (staleReset cutoff r)
      (by
        simp only [recoverStaleLocks, List.mem_map]
        exact ⟨r, hr, rfl⟩)
    by_cases hc : staleCond cutoff r = true
    · exfalso
      rw [staleReset, if_pos hc] at he
      simp [eligible] at he
    · rw [staleReset, if_neg hc]
  have hmap : s.reports.map (staleReset cutoff) = s.reports := by
    rw [List.map_congr_left hfix]
    exact List.map_id' s.reports
  rw [recoverStaleLocks, hmap]

/-- Claim C10: one worker tick is total in the fault oracle — the body
either returns normally or throws, and the outermost catch converts the
throw into a normal return carrying whatever writes already committed —
and a tick whose claim step finds no eligible job returns the store
unchanged. -/
theorem tick_total_and_frame (cfg : WorkerCfg) (f : Faults) (s : Store) :
    (tickBody cfg f s = Except.ok (processNextJob cfg f s) ∨
      ∃ m, tickBody cfg f s = Except.error (m, processNextJob cfg f s)) ∧
    (f.recoveryFault = none → f.claimFault = none →
      (∀ rid, cfg.held rid = false) →
      (claimNextJob cfg
        (if f.recoveryFires then recoverStaleLocks cfg.cutoff s
         else s)).1 = none →
      processNextJob cfg f s = s) := by
  constructor
  · cases htb : tickBody cfg f s with
    | ok t => exact Or.inl (by simp only [processNextJob, htb])
    | error e =>
      obtain ⟨m, t⟩ := e
      exact Or.inr ⟨m, by simp only [processNextJob, htb]⟩
  · intro h1 h2 hheld hnone
    cases hfire : f.recoveryFires with
    | false =>
      rw [hfire] at hnone
      simp only [if_neg Bool.false_ne_true] at hnone
      have hc := claim_fst_none hnone
      simp only [processNextJob, tickBody, hfire, h2, hc,
        Bool.false_eq_true, if_false]
    | true =>
      rw [hfire] at hnone
      simp only [if_pos] at hnone
      have hrec : recoverStaleLocks cfg.cutoff s = s := by
        apply recover_eq_self_of_no_eligible
        intro r hr
        by_contra hne
        have hel : eligible cfg.cutoff r = true :=
          Bool.not_eq_false _ ▸ hne
        have hpick0 : pickOldest
            (fun q => eligible cfg.cutoff q && !cfg.held q.id)
            (recoverStaleLocks cfg.cutoff s).reports = none := by
          cases hp : pickOldest
              (fun q => eligible cfg.cutoff q && !cfg.held q.id)
              (recoverStaleLocks cfg.cutoff s).reports with
          | none => rfl
          | some b =>
            have hc := claim_fst_none hnone
            simp only [claimNextJob, hp, Prod.mk.injEq] at hc
            exact Option.noConfusion hc.1
        have := pickOldest_none hpick0 r hr
        rw [hel, hheld r.id] at this
        simp at this
      rw [hrec] at hnone
      have hc := claim_fst_none hnone
      simp only [processNextJob, tickBody, hfire, h1, hrec, h2, hc,
        if_true]

/-- The empty fixture store. -/
def fxEmpty : Store :=
  { reports := [], artifacts := [], executions := [], nextExecId := 0,
    nextArtifactId := 0 }

/-- Witness for `tick_total_and_frame`: an empty store and a clean tick. -/
theorem tick_total_and_frame_witness :
    (tickBody fxCfg (Faults.clean (Except.ok fxArt)) fxEmpty =
        Except.ok (processNextJob fxCfg (Faults.clean (Except.ok fxArt))
          fxEmpty) ∨
      ∃ m, tickBody fxCfg (Faults.clean (Except.ok fxArt)) fxEmpty =
        Except.error (m, processNextJob fxCfg
          (Faults.clean (Except.ok fxArt)) fxEmpty)) ∧
    processNextJob fxCfg (Faults.clean (Except.ok fxArt)) fxEmpty =
      fxEmpty := by
  have h := tick_total_and_frame fxCfg (Faults.clean (Except.ok fxArt))
    fxEmpty
  exact ⟨h.1, h.2 rfl rfl (fun rid => rfl) (by decide)⟩

/-- A fault oracle where only the success branch's execution-close update
throws a transient store error. -/
def fxFaultsMidCrash : Faults :=
  { Faults.clean (Except.ok fxArt) with completeExecFault := some "io error" }

/-- The store after the claim of `fxPending` on `fxStorePend`. -/
def fxS2 : Store := (claimNextJob fxCfg fxStorePend).2

/-- The store after the execution insert of the same tick. -/
def fxS3 : Store :=
  (createExecution fxPending.id (fxPending.attempts + 1) fxCfg.now fxS2).2

/-- The committed store at the moment the execution-close update throws:
the artifact insert and the `COMPLETED` update have already been applied
as separate auto-committed statements. -/
def fxMid : Store :=
  { reports := [{ fxPending with
      status := ReportStatus.COMPLETED
      attempts := 1 }]
    artifacts := [{ id := 0, reportId := 1, contentType := "text/csv",
                    content := "csv", sizeBytes := 3, checksum := "c0" }]
    executions := [{ id := 0, reportId := 1, attempt := 1, startedAt := 100,
                     finishedAt := none, error := none }]
    nextExecId := 1
    nextArtifactId := 1 }

/-- Claim C4, evaluated at the failing input: in the tick where artifact
insert and the `COMPLETED` update succeed but the execution-close update
throws a transient error, the job is observed `COMPLETED` in the committed
store, and the tick's failure path then moves it back to `PENDING` with
`attempts := 1`, leaving its artifact in place — `COMPLETED` is not
terminal under the code's failure-path update. -/
theorem tick_uncompletes_completed_job :
    claimNextJob fxCfg fxStorePend = (some fxPending, fxS2) ∧
      createExecution fxPending.id (fxPending.attempts + 1) fxCfg.now fxS2 =
        (0, fxS3) ∧
      innerPhase fxCfg fxFaultsMidCrash fxPending 0 fxS3 =
        Except.error ("io error", fxMid) ∧
      statusOf fxPending.id fxMid = some ReportStatus.COMPLETED ∧
      fxMid.artifacts.length = 1 ∧
      tickBody fxCfg fxFaultsMidCrash fxStorePend =
        failurePath fxCfg fxFaultsMidCrash fxPending 0 "io error" fxMid ∧
      statusOf fxPending.id
          (processNextJob fxCfg fxFaultsMidCrash fxStorePend) =
        some ReportStatus.PENDING ∧
      attemptsOf fxPending.id
          (processNextJob fxCfg fxFaultsMidCrash fxStorePend) = some 1 ∧
      (processNextJob fxCfg fxFaultsMidCrash fxStorePend).artifacts.length =
        1 := by
  refine ⟨by decide, by decide, rfl, by decide, by decide, rfl, by decide,
    by decide, by decide⟩

/-! Lemmas about the pagination sort. -/

theorem length_insertByCreatedDesc (r : Report) (l : List Report) :
    (insertByCreatedDesc r l).length = l.length + 1 := by
  induction l with
  | nil => rfl
  | cons b bs ih =>
    rw [insertByCreatedDesc]
    split
    · rfl
    · simp only [List.length_cons, ih]

theorem length_sortByCreatedDesc (l : List Report) :
    (sortByCreatedDesc l).length = l.length := by
  induction l with
  | nil => rfl
  | cons r rs ih =>
    rw [sortByCreatedDesc, length_insertByCreatedDesc, ih, List.length_cons]

theorem mem_insertByCreatedDesc {x r : Report} {l : List Report} :
    x ∈ insertByCreatedDesc r l ↔ x = r ∨ x ∈ l := by
  induction l with
  | nil => simp [insertByCreatedDesc]
  | cons b bs ih =>
    rw [insertByCreatedDesc]
    split
    · simp
    · simp only [List.mem_cons, ih]
      tauto

theorem mem_sortByCreatedDesc {x : Report} {l : List Report} :
    x ∈ sortByCreatedDesc l ↔ x ∈ l := by
  induction l with
  | nil => simp [sortByCreatedDesc]
  | cons r rs ih =>
    rw [sortByCreatedDesc]
    simp only [mem_insertByCreatedDesc, ih, List.mem_cons]

theorem chain_insertByCreatedDesc {r : Report} {l : List Report}
    (h : List.Chain' (fun a b => b.createdAt ≤ a.createdAt) l) :
    List.Chain' (fun a b => b.createdAt ≤ a.createdAt)
      (insertByCreatedDesc r l) := by
  induction l with
  | nil => simp [insertByCreatedDesc]
  | cons b bs ih =>
    rw [insertByCreatedDesc]
    by_cases hc : b.createdAt ≤ r.createdAt
    · rw [if_pos hc]
      exact List.chain'_cons.mpr ⟨hc, h⟩
    · rw [if_neg hc]
      obtain ⟨hhead, htail⟩ := List.chain'_cons'.mp h
      apply List.chain'_cons'.mpr
      refine ⟨?hh, ih htail⟩
      intro y hy
      cases bs with
      | nil =>
        simp only [insertByCreatedDesc, List.head?_cons,
          Option.mem_def, Option.some.injEq] at hy
        subst hy
        exact le_of_lt (lt_of_not_le hc)
      | cons c cs =>
        rw [insertByCreatedDesc] at hy
        by_cases hc2 : c.createdAt ≤ r.createdAt
        · rw [if_pos hc2] at hy
          simp only [List.head?_cons, Option.mem_def,
            Option.some.injEq] at hy
          subst hy
          exact le_of_lt (lt_of_not_le hc)
        · rw [if_neg hc2] at hy
          simp only [List.head?_cons, Option.mem_def,
            Option.some.injEq] at hy
          subst hy
          exact hhead c rfl

theorem chain_sortByCreatedDesc (l : List Report) :
    List.Chain' (fun a b => b.createdAt ≤ a.createdAt)
      (sortByCreatedDesc l) := by
  induction l with
  | nil => simp [sortByCreatedDesc]
  | cons r rs ih =>
    rw [sortByCreatedDesc]
    exact chain_insertByCreatedDesc ih

/-- A row passing the list filter has id above the cursor. -/
theorem listMatches_cursor {tenantId : String} {status : Option ReportStatus}
    {rtype : Option String} {cursor : Option Nat} {r : Report}
    (h : listMatches tenantId status rtype cursor r = true) :
    ∀ c, cursor = some c → c < r.id := by
  intro c hc
  subst hc
  simp only [listMatches, Bool.and_eq_true, decide_eq_true_eq] at h
  exact h.2

/-- The two branches of `findByTenant`, unfolded.  The page-existence test
`limit < (take (limit+1) sorted).length` is written in the equivalent form
`limit < sorted.length`. -/
theorem findByTenant_unfold (tenantId : String)
    (status : Option ReportStatus) (rtype : Option String) (limit : Nat)
    (cursor : Option Nat) (s : Store) :
    (limit < (sortByCreatedDesc (s.reports.filter
        (listMatches tenantId status rtype cursor))).length →
      findByTenant tenantId status rtype limit cursor s =
        (((sortByCreatedDesc (s.reports.filter
            (listMatches tenantId status rtype cursor))).take
              (limit + 1)).take limit,
         ((((sortByCreatedDesc (s.reports.filter
            (listMatches tenantId status rtype cursor))).take
              (limit + 1)).take limit).getLast?).map Report.id)) ∧
    (¬ limit < (sortByCreatedDesc (s.reports.filter
        (listMatches tenantId status rtype cursor))).length →
      findByTenant tenantId status rtype limit cursor s =
        ((sortByCreatedDesc (s.reports.filter
            (listMatches tenantId status rtype cursor))).take (limit + 1),
         none)) := by
  constructor <;> intro h <;> simp [findByTenant, h]

/-- Taking a front segment preserves the descending-order chain. -/
theorem chain_take {l : List Report}
    (h : List.Chain' (fun a b => b.createdAt ≤ a.createdAt) l) (n : Nat) :
    List.Chain' (fun a b => b.createdAt ≤ a.createdAt) (l.take n) :=
  List.Chain'.prefix h ( List.take_prefix n l)

/-- Claim C8: list-by-tenant applies the filters, pages by `created_at`
descending with the cursor as a strict lower bound on the id, returns at
most `limit` rows, and returns a `next_cursor` equal to the last returned
id exactly when another page exists. -/
theorem findByTenant_correct (tenantId : String)
    (status : Option ReportStatus) (rtype : Option String) (limit : Nat)
    (cursor : Option Nat) (s : Store) (hl : 1 ≤ limit) :
    (findByTenant tenantId status rtype limit cursor s).1 =
        (sortByCreatedDesc (s.reports.filter
          (listMatches tenantId status rtype cursor))).take limit ∧
      (findByTenant tenantId status rtype limit cursor s).1.length ≤
        limit ∧
      (∀ r ∈ (findByTenant tenantId status rtype limit cursor s).1,
        listMatches tenantId status rtype cursor r = true) ∧
      (∀ r ∈ (findByTenant tenantId status rtype limit cursor s).1,
        ∀ c, cursor = some c → c < r.id) ∧
      List.Chain' (fun a b => b.createdAt ≤ a.createdAt)
        (findByTenant tenantId status rtype limit cursor s).1 ∧
      ((findByTenant tenantId status rtype limit cursor s).2 ≠ none ↔
        limit < (s.reports.filter
          (listMatches tenantId status rtype cursor)).length) ∧
      (∀ c, (findByTenant tenantId status rtype limit cursor s).2 =
          some c →
        ∃ rl,
          (findByTenant tenantId status rtype limit cursor s).1.getLast? =
            some rl ∧ rl.id = c) := by
  have hlen := length_sortByCreatedDesc
    (s.reports.filter (listMatches tenantId status rtype cursor))
  by_cases hnext : limit < (sortByCreatedDesc (s.reports.filter
      (listMatches tenantId status rtype cursor))).length
  · have heq := (findByTenant_unfold tenantId status rtype limit cursor
      s).1 hnext
    have hfst : (findByTenant tenantId status rtype limit cursor s).1 =
        (sortByCreatedDesc (s.reports.filter
          (listMatches tenantId status rtype cursor))).take limit := by
      rw [heq]
      simp only [List.take_take]
      have hmin : min limit (limit + 1) = limit := by omega
      rw [hmin]
    have hreslen :
        ((findByTenant tenantId status rtype limit cursor s).1).length =
          limit := by
      rw [hfst, List.length_take]
      omega
    refine ⟨hfst, le_of_eq hreslen, ?hmem, ?hcur, ?hchain, ?hiff, ?hlast⟩
    case hmem =>
      intro r hr
      rw [hfst] at hr
      exact (List.mem_filter.mp
        (mem_sortByCreatedDesc.mp (List.take_subset _ _ hr))).2
    case hcur =>
      intro r hr
      rw [hfst] at hr
      exact listMatches_cursor
        ((List.mem_filter.mp
          (mem_sortByCreatedDesc.mp (List.take_subset _ _ hr))).2)
    case hchain =>
      rw [hfst]
      exact chain_take (chain_sortByCreatedDesc _) _
    case hiff =>
      constructor
      · intro _
        rw [← hlen]
        exact hnext
      · intro _
        rw [heq]
        have hne : (((sortByCreatedDesc (s.reports.filter
            (listMatches tenantId status rtype cursor))).take
              (limit + 1)).take limit) ≠ [] := by
          intro hnil
          have := congrArg List.length hnil
          simp only [List.length_take, List.length_nil] at this
          omega
        have hsome := List.getLast?_isSome.mpr hne
        simp only [ne_eq, Option.map_eq_none]
        cases hg : (((sortByCreatedDesc (s.reports.filter
            (listMatches tenantId status rtype cursor))).take
              (limit + 1)).take limit).getLast? with
        | none => rw [hg] at hsome; cases hsome
        | some x => simp
    case hlast =>
      intro c hc
      rw [heq] at hc
      obtain ⟨rl, hrl, hid⟩ := Option.map_eq_some'.mp hc
      refine ⟨rl, ?hgl, hid⟩
      have hfst2 := hfst
      rw [heq] at hfst2
      simp only at hfst2
      rw [hfst, ← hfst2]
      exact hrl
  · have heq := (findByTenant_unfold tenantId status rtype limit cursor
      s).2 hnext
    have hsmall : (sortByCreatedDesc (s.reports.filter
        (listMatches tenantId status rtype cursor))).length ≤ limit := by
      omega
    have hfst : (findByTenant tenantId status rtype limit cursor s).1 =
        (sortByCreatedDesc (s.reports.filter
          (listMatches tenantId status rtype cursor))).take limit := by
      rw [heq]
      simp only
      rw [List.take_of_length_le (le_trans hsmall (Nat.le_succ limit)),
        List.take_of_length_le hsmall]
    refine ⟨hfst, ?hlen2, ?hmem, ?hcur, ?hchain, ?hiff, ?hlast⟩
    case hlen2 =>
      rw [hfst, List.length_take]
      omega
    case hmem =>
      intro r hr
      rw [hfst] at hr
      exact (List.mem_filter.mp
        (mem_sortByCreatedDesc.mp (List.take_subset _ _ hr))).2
    case hcur =>
      intro r hr
      rw [hfst] at hr
      exact listMatches_cursor
        ((List.mem_filter.mp
          (mem_sortByCreatedDesc.mp (List.take_subset _ _ hr))).2)
    case hchain =>
      rw [hfst]
      exact chain_take (chain_sortByCreatedDesc _) _
    case hiff =>
      rw [heq]
      simp only [ne_eq, not_true_eq_false, false_iff, not_lt]
      rw [← hlen]
      exact hsmall
    case hlast =>
      intro c hc
      rw [heq] at hc
      cases hc

/-- A third job of the same tenant for the pagination witness. -/
def fxThird : Report :=
  { id := 3, tenantId := "t1", rtype := "BILLING_EXPORT", params := fxParams,
    status := ReportStatus.PENDING, attempts := 0, idempotencyKey := none,
    lockedAt := none, lockedBy := none, createdAt := 10 }

/-- A store with three jobs of tenant `t1`. -/
def fxListStore : Store :=
  { reports := [fxCompleted, fxPending, fxThird], artifacts := [],
    executions := [], nextExecId := 0, nextArtifactId := 0 }

/-- Witness for `findByTenant_correct`: three rows, page size 2. -/
theorem findByTenant_correct_witness :
    (findByTenant "t1" none none 2 none fxListStore).1 =
        (sortByCreatedDesc (fxListStore.reports.filter
          (listMatches "t1" none none none))).take 2 ∧
      (findByTenant "t1" none none 2 none fxListStore).1.length ≤ 2 ∧
      ((findByTenant "t1" none none 2 none fxListStore).2 ≠ none ↔
        2 < (fxListStore.reports.filter
          (listMatches "t1" none none none)).length) := by
  have h := findByTenant_correct "t1" none none 2 none fxListStore
    (by decide)
  exact ⟨h.1, h.2.1, h.2.2.2.2.2.1⟩

/-! Lemmas about idempotency-key lookups. -/

/-- After the backfill update writes the key onto row `j`, the key lookup
returns exactly that updated row. -/
theorem find?_key_map_set (l : List Report) (j : Report) (k : String)
    (hn : (l.map Report.id).Nodup) (hmem : j ∈ l)
    (hnone : ∀ r ∈ l, ¬ r.idempotencyKey = some k) :
    (l.map (fun r =>
        if r.id = j.id then { r with idempotencyKey := some k } else r)).find?
      (fun r => r.idempotencyKey = some k) =
      some { j with idempotencyKey := some k } := by
  induction l with
  | nil => simp at hmem
  | cons r rs ih =>
    simp only [List.map_cons, List.nodup_cons] at hn
    rcases List.mem_cons.mp hmem with rfl | hmemtl
    · rw [List.map_cons, if_pos rfl, List.find?_cons_of_pos _ (by simp)]
    · have hne : ¬ r.id = j.id := by
        intro hid
        exact hn.1 (hid ▸ List.mem_map_of_mem Report.id hmemtl)
      rw [List.map_cons, if_neg hne, List.find?_cons_of_neg _
        (by simpa using hnone r (List.mem_cons_self r rs))]
      exact ih hn.2 hmemtl
        (fun x hx => hnone x (List.mem_cons_of_mem r hx))

/-- A semantic hit is never `PENDING`. -/
theorem semMatches_not_pending {dto : CreateReportDto} {r : Report}
    (h : semMatches dto r = true) : ¬ r.status = ReportStatus.PENDING := by
  simp only [semMatches, Bool.and_eq_true, Bool.or_eq_true,
    decide_eq_true_eq] at h
  rcases h.2 with h2 | h2 <;> rw [h2] <;> intro hc <;> cases hc

/-- Claim C5: on a submission with no idempotency-key hit, when a job with
the same `(tenant, type, params)` exists in `COMPLETED` or `RUNNING`, the
create path returns that job — `COMPLETED` preferred over `RUNNING` and,
among `COMPLETED` matches, a most recent `created_at` — inserts no new row,
and reports `created = false`. -/
theorem semantic_dedup_correct (dto : CreateReportDto) (key : Option String)
    (newId : Nat) (now : Int) (s : Store) (j : Report) (hwf : s.WF)
    (hkey : ∀ k, key = some k → findByKey k s = none)
    (hsem : findExistingSemanticReport dto s = some j) :
    (findOrCreateBackfill dto key newId now id s).1.1.id = j.id ∧
      (findOrCreateBackfill dto key newId now id s).1.1.status = j.status ∧
      (findOrCreateBackfill dto key newId now id s).1.1.tenantId =
        j.tenantId ∧
      (findOrCreateBackfill dto key newId now id s).1.1.params = j.params ∧
      (findOrCreateBackfill dto key newId now id s).1.2 = false ∧
      (findOrCreateBackfill dto key newId now id s).2.reports.length =
        s.reports.length ∧
      semMatches dto j = true ∧
      ((∃ r ∈ s.reports, semMatches dto r = true ∧
          r.status = ReportStatus.COMPLETED) →
        j.status = ReportStatus.COMPLETED ∧
        ∀ r ∈ s.reports, semMatches dto r = true →
          r.status = ReportStatus.COMPLETED →
          r.createdAt ≤ j.createdAt) := by
  have hmem := pickSemantic_mem hsem
  have hprop := pickSemantic_prop hsem
  have hbest := pickSemantic_best hsem
  have hnp := semMatches_not_pending hprop
  have hcreate : reportsCreate dto newId now s = (j, s) := by
    simp only [reportsCreate, findExistingSemanticReport] at hsem ⊢
    rw [hsem]
  have hpref : (∃ r ∈ s.reports, semMatches dto r = true ∧
      r.status = ReportStatus.COMPLETED) →
      j.status = ReportStatus.COMPLETED ∧
      ∀ r ∈ s.reports, semMatches dto r = true →
        r.status = ReportStatus.COMPLETED → r.createdAt ≤ j.createdAt := by
    rintro ⟨r0, hr0, hm0, hst0⟩
    have hb0 := hbest r0 hr0 hm0
    simp only [semBefore, Bool.or_eq_false_iff, Bool.and_eq_false_iff,
      decide_eq_false_iff_not, not_lt] at hb0
    have hj : j.status = ReportStatus.COMPLETED := by
      have hple := hb0.1
      rw [hst0] at hple
      have hsem2 : j.status = ReportStatus.COMPLETED ∨
          j.status = ReportStatus.RUNNING := by
        simp only [semMatches, Bool.and_eq_true, Bool.or_eq_true,
          decide_eq_true_eq] at hprop
        exact hprop.2
      rcases hsem2 with h | h
      · exact h
      · rw [h] at hple
        simp [statusPrio] at hple
    refine ⟨hj, ?rec⟩
    intro r hr hm hst
    have hb := hbest r hr hm
    simp only [semBefore, Bool.or_eq_false_iff, Bool.and_eq_false_iff,
      decide_eq_false_iff_not, not_lt] at hb
    rcases hb.2 with hbad | hle
    · exfalso
      apply hbad
      rw [hst, hj]
    · exact hle
  cases key with
  | none =>
    have hout : findOrCreateBackfill dto none newId now id s =
        ((j, decide (j.status = ReportStatus.PENDING)), s) := by
      simp only [findOrCreateBackfill, hcreate]
    rw [hout]
    exact ⟨rfl, rfl, rfl, rfl, decide_eq_false hnp, rfl, hprop, hpref⟩
  | some k =>
    have hk := hkey k rfl
    by_cases hjk : j.idempotencyKey = none
    · have hnodup : ∀ r ∈ s.reports, ¬ r.idempotencyKey = some k := by
        intro r hr
        have := List.find?_eq_none.mp hk r hr
        simpa using this
      have hany : s.reports.any (fun r => r.idempotencyKey = some k) =
          false := by
        rw [List.any_eq_false]
        intro r hr
        simpa using hnodup r hr
      have hset : setIdemKey j.id k s = Except.ok (updateReport j.id
          (fun r => { r with idempotencyKey := some k }) s) := by
        simp only [setIdemKey, hany, Bool.false_eq_true, if_false]
      have hfindset : findByKey k (updateReport j.id
          (fun r => { r with idempotencyKey := some k }) s) =
          some { j with idempotencyKey := some k } :=
        find?_key_map_set s.reports j k hwf.1 hmem hnodup
      have hout : findOrCreateBackfill dto (some k) newId now id s =
          (({ j with idempotencyKey := some k },
            decide (j.status = ReportStatus.PENDING)),
           updateReport j.id
             (fun r => { r with idempotencyKey := some k }) s) := by
        simp only [findOrCreateBackfill, hk, findOrCreateBackfillMiss,
          hcreate, if_pos hjk, id_eq, hset, hfindset]
      rw [hout]
      exact ⟨rfl, rfl, rfl, rfl, decide_eq_false hnp,
        by simp [updateReport], hprop, hpref⟩
    · have hout : findOrCreateBackfill dto (some k) newId now id s =
          ((j, decide (j.status = ReportStatus.PENDING)), s) := by
        simp only [findOrCreateBackfill, hk, findOrCreateBackfillMiss,
          hcreate, if_neg hjk]
      rw [hout]
      exact ⟨rfl, rfl, rfl, rfl, decide_eq_false hnp, rfl, hprop, hpref⟩

/-- The fixture submission body. -/
def fxDto : CreateReportDto :=
  { tenantId := "t1", rtype := "USAGE_SUMMARY", params := fxParams }

/-- Witness for `semantic_dedup_correct`: a keyless submission against
`fxStore1`, whose completed row matches. -/
theorem semantic_dedup_correct_witness :
    (findOrCreateBackfill fxDto none 9 50 id fxStore1).1.1.id =
        fxCompleted.id ∧
      (findOrCreateBackfill fxDto none 9 50 id fxStore1).1.2 = false ∧
      (findOrCreateBackfill fxDto none 9 50 id fxStore1).2.reports.length =
        fxStore1.reports.length := by
  have h := semantic_dedup_correct fxDto none 9 50 fxStore1 fxCompleted
    (by decide) (fun k hk => Option.noConfusion hk) (by decide)
  exact ⟨h.1, h.2.2.2.2.1, h.2.2.2.2.2.1⟩

/-- A row carrying an idempotency key exists exactly when the key lookup
succeeds; from a successful `any` test, extract the found row. -/
theorem findByKey_of_any {k : String} {l : List Report}
    (h : l.any (fun r => r.idempotencyKey = some k) = true) :
    ∃ w, l.find? (fun r => r.idempotencyKey = some k) = some w := by
  rw [List.any_eq_true] at h
  obtain ⟨r, hr, hp⟩ := h
  have : (l.find? (fun r => r.idempotencyKey = some k)).isSome := by
    rw [List.find?_isSome]
    exact ⟨r, hr, hp⟩
  cases hf : l.find? (fun r => r.idempotencyKey = some k) with
  | none => rw [hf] at this; cases this
  | some w => exact ⟨w, rfl⟩

/-- Claim C6: an idempotency-key hit returns that job with
`created = false` in both service variants, and a uniqueness violation on
the key — at the insert or at the key backfill — is always resolved by
re-reading the row carrying the key and returning it; the insert variant's
conflict branch is never reached. -/
theorem idempotency_key_resolution (dto : CreateReportDto) (k : String)
    (newId : Nat) (now : Int) (race : Store → Store) (s : Store) :
    (∀ r, findByKey k s = some r →
      findOrCreateBackfill dto (some k) newId now race s = ((r, false), s) ∧
      findOrCreateInsert dto (some k) newId now race s =
        Except.ok ((r, false), s)) ∧
    (∀ e, findOrCreateInsert dto (some k) newId now race s ≠
      Except.error e) ∧
    (findByKey k s = none → ∀ w, findByKey k (race s) = some w →
      findOrCreateInsert dto (some k) newId now race s =
        Except.ok ((w, false), race s)) ∧
    (findByKey k s = none →
      ∀ res s1, reportsCreate dto newId now s = (res, s1) →
      res.idempotencyKey = none →
      ∀ w, findByKey k (race s1) = some w →
      findOrCreateBackfill dto (some k) newId now race s =
        ((w, false), race s1)) := by
  refine ⟨?hit, ?noconflict, ?insdup, ?backdup⟩
  case hit =>
    intro r hr
    constructor
    · simp only [findOrCreateBackfill, hr]
    · simp only [findOrCreateInsert, hr]
  case noconflict =>
    intro e
    cases hf : findByKey k s with
    | some r =>
      simp only [findOrCreateInsert, hf]
      intro hc
      cases hc
    | none =>
      simp only [findOrCreateInsert, hf]
      cases hins : insertReportWithKey dto k newId now (race s) with
      | ok p =>
        intro hc
        cases hc
      | error u =>
        have hany : (race s).reports.any
            (fun r => r.idempotencyKey = some k) = true := by
          by_contra hne
          rw [insertReportWithKey,
            if_neg (fun hx => hne hx)] at hins
          cases hins
        obtain ⟨w, hw⟩ := findByKey_of_any hany
        simp only [findByKey, hw]
        intro hc
        cases hc
  case insdup =>
    intro hf w hw
    have hw2 : (race s).reports.find?
        (fun r => r.idempotencyKey = some k) = some w := hw
    have hany : (race s).reports.any
        (fun r => r.idempotencyKey = some k) = true := by
      rw [List.any_eq_true]
      exact ⟨w, List.mem_of_find?_eq_some hw2,
        by simpa using List.find?_some hw2⟩
    have hins : insertReportWithKey dto k newId now (race s) =
        Except.error () := by
      rw [insertReportWithKey, if_pos hany]
    simp only [findOrCreateInsert, hf, hins, hw]
  case backdup =>
    intro hf res s1 hrc hreskey w hw
    have hw2 : (race s1).reports.find?
        (fun r => r.idempotencyKey = some k) = some w := hw
    have hany : (race s1).reports.any
        (fun r => r.idempotencyKey = some k) = true := by
      rw [List.any_eq_true]
      exact ⟨w, List.mem_of_find?_eq_some hw2,
        by simpa using List.find?_some hw2⟩
    have hset : setIdemKey res.id k (race s1) = Except.error () := by
      rw [setIdemKey, if_pos hany]
    simp only [findOrCreateBackfill, hf, findOrCreateBackfillMiss, hrc,
      if_pos hreskey, hset, hw]

/-- A report row carrying the fixture idempotency key. -/
def fxKeyed : Report :=
  { id := 4, tenantId := "t1", rtype := "USAGE_SUMMARY", params := fxParams,
    status := ReportStatus.COMPLETED, attempts := 1,
    idempotencyKey := some "K", lockedAt := none, lockedBy := none,
    createdAt := 2 }

/-- A store with a keyed row. -/
def fxStoreKeyed : Store :=
  { reports := [fxKeyed], artifacts := [], executions := [],
    nextExecId := 0, nextArtifactId := 0 }

/-- Witness for `idempotency_key_resolution`: a key hit on the keyed
store. -/
theorem idempotency_key_resolution_witness :
    findOrCreateBackfill fxDto (some "K") 9 50 id fxStoreKeyed =
        ((fxKeyed, false), fxStoreKeyed) ∧
      findOrCreateInsert fxDto (some "K") 9 50 id fxStoreKeyed =
        Except.ok ((fxKeyed, false), fxStoreKeyed) := by
  exact (idempotency_key_resolution fxDto "K" 9 50 id fxStoreKeyed).1
    fxKeyed (by decide)

end ReportOrchestrator
